import Mathlib

/-!
Verification of the data-preparation pipeline and metric module of the
`transformer` repository.  The two Python source files are shallowly
embedded: numeric arrays become (nested) lists of rationals, tables become
row-indexed cell functions, and the network/filesystem effects of the
download pipeline become explicit event traces.
-/

namespace Transformer

/-! ## Embedding of `src/metrics.py` (`MSE`)

`MSE(y_true, y_pred, occupation=None, idx_label=None)` operates on 2-D
tensors (samples × output columns).  The `idx_label` argument is a Python
value that may be `None`, an integer, or a list of integers; the code
replaces any *falsy* value by `torch.arange(y_true.shape[-1])` via the
`idx_label or torch.arange(...)` idiom.  Tensor values are modelled as
rationals (the example values in the spec are exactly representable). -/

/-- The Python `idx_label` argument: `None`, an `int`, or a list of ints. -/
inductive IdxLabel
  | noneI : IdxLabel
  | intI : Int → IdxLabel
  | listI : List Int → IdxLabel
deriving DecidableEq

/-- Python truthiness of an `idx_label` value: `None`, `0` and `[]` are falsy. -/
def IdxLabel.truthy : IdxLabel → Bool
  | .noneI => false
  | .intI k => k != 0
  | .listI l => !l.isEmpty

/-- The index actually used after `idx_label or torch.arange(n)`:
either a scalar integer (which drops the last dimension when indexing)
or a list of column indices. -/
inductive Sel
  | scalar : Int → Sel
  | cols : List Int → Sel
deriving DecidableEq

/-- `torch.arange(n)`: the integer column indices `0..n-1`. -/
def arange (n : Nat) : List Int :=
  (List.range n).map (fun (i : Nat) => (i : Int))

/-- `idx_label or torch.arange(n)`: a falsy `idx_label` is replaced by the
full column range `0..n-1`. -/
def resolveIdx (idx : IdxLabel) (n : Nat) : Sel :=
  if idx.truthy then
    match idx with
    | .noneI => .cols (arange n)
    | .intI k => .scalar k
    | .listI l => .cols l
  else .cols (arange n)

/-- Tensor column access `r[k]` with Python/torch negative-index wrapping. -/
def colAt (r : List Rat) (k : Int) : Rat :=
  if k < 0 then r.getD (r.length - (-k).toNat) 0 else r.getD k.toNat 0

/-- Elementwise `torch.pow(a - b, 2)` on one row. -/
def sqDiffRow (a b : List Rat) : List Rat :=
  List.zipWith (fun u v => (u - v) ^ 2) a b

/-- Shallow embedding of `MSE` from `src/metrics.py` for 2-D inputs.

```python
def MSE(y_true, y_pred, occupation=None, idx_label=None):
    idx_label = idx_label or torch.arange(y_true.shape[-1])
    diff = torch.pow(y_true[..., idx_label]-y_pred[..., idx_label], 2)
    if occupation is not None:
        occupation = occupation.unsqueeze(-1)
        diff = diff * occupation
    output = torch.sum(diff) / torch.prod(torch.Tensor([*y_true.shape]))
    return output.item()
```

With a list selection, `diff` is 2-D (samples × selected columns) and
`occupation.unsqueeze(-1)` broadcasts one weight per sample row across the
row.  With a scalar (truthy integer) selection, indexing drops the last
dimension, `diff` is 1-D of length `m`, and `diff * occupation` broadcasts
`(m,)` against `(m,1)` into an `(m,m)` outer product.  The divisor is the
element count of the full, unselected `y_true`. -/
def MSE (y_true y_pred : List (List Rat)) (occupation : Option (List Rat))
    (idx_label : IdxLabel) : Rat :=
  let n := (y_true.headD []).length
  let total : Rat := (y_true.length : Rat) * (n : Rat)
  match resolveIdx idx_label n with
  | .cols c =>
    let t := y_true.map (fun r => c.map (colAt r))
    let p := y_pred.map (fun r => c.map (colAt r))
    let diff := List.zipWith sqDiffRow t p
    let diff := match occupation with
      | none => diff
      | some w =>
        List.zipWith (fun (row : List Rat) (wi : Rat) => row.map (fun d => d * wi)) diff w
    (diff.map List.sum).sum / total
  | .scalar k =>
    let t := y_true.map (fun r => colAt r k)
    let p := y_pred.map (fun r => colAt r k)
    let diff := List.zipWith (fun u v => (u - v) ^ 2) t p
    match occupation with
    | none => diff.sum / total
    | some w => ((w.map (fun wi => (diff.map (fun d => d * wi)).sum)).sum) / total

/-! ### Helper lemmas about `MSE` -/

@[simp] lemma arange_length (n : Nat) : (arange n).length = n := by
  simp [arange]

@[simp] lemma getElem_arange (n i : Nat) (h : i < (arange n).length) :
    (arange n)[i] = (i : Int) := by
  simp [arange]

/-- Selecting with the full range `torch.arange(r.length)` returns the row. -/
lemma map_colAt_range (r : List Rat) :
    (arange r.length).map (colAt r) = r := by
  apply List.ext_getElem
  · simp
  · intro i h1 h2
    simp only [List.getElem_map, getElem_arange]
    unfold colAt
    rw [if_neg (by omega)]
    have htn : ((i : Int)).toNat = i := by omega
    rw [htn]
    exact List.getD_eq_getElem r 0 h2

/-- Full-range selection applied to every row of a rectangular matrix is the
identity. -/
lemma select_range_id (y : List (List Rat)) (n : Nat) (h : ∀ r ∈ y, r.length = n) :
    y.map (fun r => ((arange n).map (colAt r))) = y := by
  conv_rhs => rw [← List.map_id y]
  apply List.map_congr_left
  intro r hr
  rw [← h r hr]
  exact map_colAt_range r

lemma sum_sqDiffRow_self (a : List Rat) : (sqDiffRow a a).sum = 0 := by
  simp [sqDiffRow]

lemma sum_map_sqDiff_self (t : List (List Rat)) :
    ((List.zipWith sqDiffRow t t).map List.sum).sum = 0 := by
  induction t with
  | nil => rfl
  | cons a t ih =>
    simp only [List.zipWith_cons_cons, List.map_cons, List.sum_cons]
    rw [sum_sqDiffRow_self a, ih]
    norm_num

lemma sum_map_mul_wi (row : List Rat) (wi : Rat) :
    (row.map (fun x => x * wi)).sum = row.sum * wi := by
  induction row with
  | nil => simp
  | cons x xs ih => simp [ih, add_mul]

/-- Scaling each row of `d` by the matching entry of an all-ones weight vector
of length at least `d.length` is the identity. -/
lemma zipWith_scale_ones (d : List (List Rat)) (m : Nat) (h : d.length ≤ m) :
    List.zipWith (fun (row : List Rat) (wi : Rat) => row.map (fun x => x * wi)) d
      (List.replicate m 1) = d := by
  induction d generalizing m with
  | nil => simp
  | cons a d ih =>
    cases m with
    | zero => simp at h
    | succ m =>
      simp only [List.replicate_succ, List.zipWith_cons_cons]
      rw [ih m (by simpa using h)]
      simp

/-- Row-wise weighting then summing equals weighting the row sums. -/
lemma map_sum_zipWith_scale (d : List (List Rat)) (w : List Rat) :
    ((List.zipWith (fun (row : List Rat) (wi : Rat) => row.map (fun x => x * wi)) d w).map
        List.sum).sum
      = (List.zipWith (fun (dr : List Rat) (wi : Rat) => dr.sum * wi) d w).sum := by
  induction d generalizing w with
  | nil => simp
  | cons a d ih =>
    cases w with
    | nil => simp
    | cons wi w => simp [ih, sum_map_mul_wi]

lemma resolveIdx_listI (l : List Int) (n : Nat) :
    resolveIdx (.listI l) n
      = .cols (if l.isEmpty then arange n else l) := by
  cases h : l.isEmpty <;> simp [resolveIdx, IdxLabel.truthy, h]

lemma resolveIdx_noneI (n : Nat) :
    resolveIdx .noneI n = .cols (arange n) := rfl

/-- Core of C9: for any concrete column list, an all-ones occupation vector of
length `y_true.length` does not change the value. -/
lemma MSE_cols_ones (yt yp : List (List Rat)) (c : List Int) :
    ((List.zipWith (fun (row : List Rat) (wi : Rat) => row.map (fun x => x * wi))
        (List.zipWith sqDiffRow (yt.map (fun r => c.map (colAt r)))
          (yp.map (fun r => c.map (colAt r))))
        (List.replicate yt.length 1)).map List.sum).sum
      = ((List.zipWith sqDiffRow (yt.map (fun r => c.map (colAt r)))
          (yp.map (fun r => c.map (colAt r)))).map List.sum).sum := by
  rw [zipWith_scale_ones]
  rw [List.length_zipWith]
  simp [Nat.min_le_left]

/-! ### Theorems about `MSE` (claims C2, C8, C9, C10) -/

/-- C2: with default column selection and no occupation weight, `MSE` is the
sum of elementwise squared differences divided by the total element count of
`y_true`; on `y_true = [[1,2],[3,4]]`, `y_pred = [[1,2],[3,5]]` it is `0.25`;
and with an occupation weight, each sample row's squared differences are
scaled by that sample's weight before summing, the divisor staying the total
element count of the unmasked `y_true`. -/
theorem MSE_sum_sq_div_count (yt yp : List (List Rat)) (w : List Rat) (n : Nat)
    (hn : n = (yt.headD []).length)
    (hyt : ∀ r ∈ yt, r.length = n) (hyp2 : ∀ r ∈ yp, r.length = n) :
    MSE yt yp none .noneI
        = ((List.zipWith sqDiffRow yt yp).map List.sum).sum
            / ((yt.length : Rat) * (n : Rat))
  ∧ MSE [[1,2],[3,4]] [[1,2],[3,5]] none .noneI = 1/4
  ∧ MSE yt yp (some w) .noneI
        = (List.zipWith (fun (dr : List Rat) (wi : Rat) => dr.sum * wi)
            (List.zipWith sqDiffRow yt yp) w).sum
            / ((yt.length : Rat) * (n : Rat)) := by
  subst hn
  refine ⟨?_, ?_, ?_⟩
  · simp only [MSE, resolveIdx_noneI]
    rw [select_range_id yt _ hyt, select_range_id yp _ hyp2]
  · norm_num [MSE, resolveIdx, IdxLabel.truthy, colAt, sqDiffRow, arange, List.range_succ]
  · simp only [MSE, resolveIdx_noneI]
    rw [select_range_id yt _ hyt, select_range_id yp _ hyp2, map_sum_zipWith_scale]

/-- Witness for C2 at the spec's concrete example. -/
theorem MSE_sum_sq_div_count_witness :
    ((2 : Nat) = (([[1,2],[3,4]] : List (List Rat)).headD []).length
      ∧ (∀ r ∈ ([[1,2],[3,4]] : List (List Rat)), r.length = 2)
      ∧ (∀ r ∈ ([[1,2],[3,5]] : List (List Rat)), r.length = 2))
  ∧ MSE [[1,2],[3,4]] [[1,2],[3,5]] none .noneI = 1/4 :=
  ⟨⟨by decide, by decide, by decide⟩,
   (MSE_sum_sq_div_count [[1,2],[3,4]] [[1,2],[3,5]] [1,1] 2
      (by decide) (by decide) (by decide)).2.1⟩

/-- C8: `MSE(y, y)` with no occupation weight and default column selection is
exactly `0`. -/
theorem MSE_self_eq_zero (y : List (List Rat)) : MSE y y none .noneI = 0 := by
  simp only [MSE, resolveIdx_noneI]
  rw [sum_map_sqDiff_self, zero_div]

/-- C9: `MSE` with an occupation weight vector of all ones (one weight per
sample row) equals `MSE` with no occupation weight, for every column
selection (an explicit index list or the default). -/
theorem MSE_all_ones_occupation (yt yp : List (List Rat)) (l : List Int) :
    MSE yt yp (some (List.replicate yt.length 1)) (.listI l)
        = MSE yt yp none (.listI l)
  ∧ MSE yt yp (some (List.replicate yt.length 1)) .noneI
        = MSE yt yp none .noneI := by
  constructor
  · simp only [MSE, resolveIdx_listI]
    rw [MSE_cols_ones]
  · simp only [MSE, resolveIdx_noneI]
    rw [MSE_cols_ones]

/-- C10: a falsy `idx_label` (the integer `0` or the empty index list) is
replaced by the full column range by `idx_label or torch.arange(...)`, so the
result equals the all-columns `MSE`. -/
theorem MSE_falsy_idx_label (y p : List (List Rat)) (occ : Option (List Rat)) :
    MSE y p occ (.intI 0) = MSE y p occ .noneI
  ∧ MSE y p occ (.listI []) = MSE y p occ .noneI :=
  ⟨rfl, rfl⟩

/-! ## Embedding of `download_from_url` (`src/dataset/process_data.py`)

The function first issues a plain streaming GET, reads the advertised
filename (content-disposition) and total size (content-length), computes the
resume offset from the size of an existing local file of that name, returns
at once if the offset already covers the total size, and otherwise issues a
second GET with header `Range: bytes=first_byte-size` and appends the
response body to the local file in chunks of 1024 bytes.  The embedding
records the requests issued and the bytes appended as an event trace;
`localFile` is the size of the already-present local file of the advertised
name (`none` when absent), and the ranged response carries the remaining
`size - first_byte` bytes. -/

/-- One observable step of `download_from_url`: the initial header-reading
GET, the ranged GET (with the two offsets written into the `Range` header),
or one chunk appended to the local file. -/
inductive DlEvent
  | initialGet : DlEvent
  | rangedGet : Nat → Nat → DlEvent
  | appendChunk : Nat → DlEvent
deriving DecidableEq

/-- The remote file as advertised by the response headers:
content-disposition filename and content-length size. -/
structure RemoteSrc where
  name : String
  size : Nat
deriving DecidableEq

/-- Outcome of one `download_from_url` call: the trace of events, the
returned value, and the size of the local file afterwards. -/
structure DlResult where
  events : List DlEvent
  returned : Nat
  localSize : Nat
deriving DecidableEq

/-- The sizes of the successive 1024-byte chunks in which a body of `n`
bytes is delivered by `response.iter_content(chunk_size=1024)`. -/
def chunkSizes : Nat → List Nat
  | 0 => []
  | n + 1 => min 1024 (n + 1) :: chunkSizes (n + 1 - 1024)
termination_by n => n
decreasing_by omega

lemma sum_chunkSizes (n : Nat) : (chunkSizes n).sum = n := by
  induction n using Nat.strong_induction_on with
  | _ n ih =>
    match n with
    | 0 => simp [chunkSizes]
    | m + 1 =>
      rw [chunkSizes]
      rw [List.sum_cons, ih (m + 1 - 1024) (by omega)]
      omega

/-- Shallow embedding of `download_from_url`. -/
def download_from_url (remote : RemoteSrc) (localFile : Option Nat) : DlResult :=
  let first_byte := match localFile with
    | some sz => sz
    | none => 0
  if first_byte ≥ remote.size then
    { events := [.initialGet], returned := remote.size, localSize := first_byte }
  else
    { events := .initialGet :: .rangedGet first_byte remote.size ::
        (chunkSizes (remote.size - first_byte)).map .appendChunk
    , returned := remote.size
    , localSize := first_byte + (chunkSizes (remote.size - first_byte)).sum }

/-- C5: when a local file of the advertised name exists with size at least
the remote total size, `download_from_url` returns the total size with only
the initial header request in its trace: no ranged request, no appended
chunk, and the local file size unchanged. -/
theorem download_resume_complete_noop (remote : RemoteSrc) (n : Nat)
    (h : n ≥ remote.size) :
    download_from_url remote (some n)
      = { events := [.initialGet], returned := remote.size, localSize := n } := by
  simp [download_from_url, h]

/-- Witness for C5. -/
theorem download_resume_complete_noop_witness :
    (100 ≥ (RemoteSrc.mk "x_test_QK7dVsy.csv" 100).size)
  ∧ download_from_url (RemoteSrc.mk "x_test_QK7dVsy.csv" 100) (some 100)
      = { events := [.initialGet], returned := 100, localSize := 100 } :=
  ⟨by decide, download_resume_complete_noop (RemoteSrc.mk "x_test_QK7dVsy.csv" 100) 100
      (by decide)⟩

/-- C6: when the existing local file is smaller than the remote total size,
the second request's byte-range starts exactly at the current local file
size, and after all received chunks are appended the local file size equals
the remote total size. -/
theorem download_resume_range_start (remote : RemoteSrc) (n : Nat)
    (h : n < remote.size) :
    download_from_url remote (some n)
      = { events := .initialGet :: .rangedGet n remote.size ::
            (chunkSizes (remote.size - n)).map .appendChunk
        , returned := remote.size
        , localSize := remote.size } := by
  have hs : n + (remote.size - n) = remote.size := by omega
  simp only [download_from_url]
  rw [if_neg (by omega), sum_chunkSizes, hs]

/-- Witness for C6. -/
theorem download_resume_range_start_witness :
    (1000 < (RemoteSrc.mk "y_train_EFo1WyE.csv" 2500).size)
  ∧ download_from_url (RemoteSrc.mk "y_train_EFo1WyE.csv" 2500) (some 1000)
      = { events := .initialGet :: .rangedGet 1000 2500 ::
            (chunkSizes (2500 - 1000)).map .appendChunk
        , returned := 2500
        , localSize := 2500 } :=
  ⟨by decide, download_resume_range_start (RemoteSrc.mk "y_train_EFo1WyE.csv" 2500) 1000
      (by decide)⟩

/-! ## Embedding of `npz_check` (`src/dataset/process_data.py`)

`npz_check` first runs the presence gate (lines 127-149): with no datasets
directory it creates it, requires all three remote files and the rebuild;
with a directory it appends `x_test` when that file is absent, and — in a
second, independent `if` — when the output `.npz` is absent it sets the
rebuild flag and appends whichever of `x_train`, `y_train` is absent.  When
the download set is non-empty it then opens a session, GETs the login page,
scrapes the CSRF token, loads the dotenv file, reads the two credential
variables and only then raises `ValueError` if either is missing; otherwise
it POSTs the login form and downloads every required file. -/

/-- The three remote dataset parts. -/
inductive RemoteFile
  | xTrain
  | yTrain
  | xTest
deriving DecidableEq

/-- Local filesystem state seen by the presence gate: whether the datasets
directory exists and which of the four relevant files are present in it. -/
structure FS where
  dirExists : Bool
  hasXTest : Bool
  hasNpz : Bool
  hasXTrain : Bool
  hasYTrain : Bool
deriving DecidableEq

/-- Presence-gate portion of `npz_check`: the list `files_to_download` (in
the order the code appends to it) and the `make_npz_flag`. -/
def npz_check_gate (fs : FS) : List RemoteFile × Bool :=
  if !fs.dirExists then
    ([.xTrain, .yTrain, .xTest], true)
  else
    let files := if !fs.hasXTest then [RemoteFile.xTest] else []
    if !fs.hasNpz then
      let files := files ++ (if !fs.hasXTrain then [RemoteFile.xTrain] else [])
      let files := files ++ (if !fs.hasYTrain then [RemoteFile.yTrain] else [])
      (files, true)
    else (files, false)

/-- A network request issued by `npz_check`. -/
inductive NetEvent
  | getLoginPage
  | postLogin
  | getFile : RemoteFile → NetEvent
deriving DecidableEq

/-- The one structured error `npz_check` raises itself. -/
inductive PipelineError
  | valueError
deriving DecidableEq

/-- The two credential variables read from the execution environment. -/
structure Env where
  userName : Option String
  password : Option String
deriving DecidableEq

/-- Network/credential portion of `npz_check` on happy-path responses: the
network requests issued in program order, and the raised error if any.  The
login-page GET precedes the credential check, mirroring the code. -/
def npz_check_net (fs : FS) (env : Env) : List NetEvent × Option PipelineError :=
  let files := (npz_check_gate fs).1
  if files.isEmpty then ([], none)
  else
    if env.userName.isNone || env.password.isNone then
      ([NetEvent.getLoginPage], some .valueError)
    else
      (NetEvent.getLoginPage :: NetEvent.postLogin :: files.map NetEvent.getFile, none)

/-- Counterexample to C3 as stated: with both credentials absent and a
non-empty download set, `npz_check` does raise `ValueError`, but the request
trace at that point is not empty — the login-page GET has already been
issued. -/
theorem npz_check_net_request_precedes_error :
    npz_check_net (FS.mk false false false false false) (Env.mk none none)
      = ([NetEvent.getLoginPage], some .valueError)
  ∧ ([NetEvent.getLoginPage] : List NetEvent) ≠ [] := by
  constructor
  · rfl
  · decide

/-- C3 (amended): whenever the credentials are missing and the
required-download set is non-empty, `npz_check` raises `ValueError` after
issuing exactly one network request — the login-page GET — and before the
login POST and before any file download. -/
theorem npz_check_missing_creds (fs : FS) (env : Env)
    (hfiles : (npz_check_gate fs).1 ≠ [])
    (hcred : env.userName = none ∨ env.password = none) :
    npz_check_net fs env = ([NetEvent.getLoginPage], some .valueError) := by
  rcases hcred with h | h <;>
    simp [npz_check_net, List.isEmpty_iff, hfiles, h]

/-- Witness for the amended C3. -/
theorem npz_check_missing_creds_witness :
    ((npz_check_gate (FS.mk false false false false false)).1 ≠ []
      ∧ ((Env.mk none none).userName = none ∨ (Env.mk none none).password = none))
  ∧ npz_check_net (FS.mk false false false false false) (Env.mk none none)
      = ([NetEvent.getLoginPage], some .valueError) :=
  ⟨⟨by decide, Or.inl rfl⟩,
   npz_check_missing_creds (FS.mk false false false false false) (Env.mk none none)
      (by decide) (Or.inl rfl)⟩

/-- Counterexample to C4 as stated: with the directory present and the
feature-test file, the archive and both train files absent, the gate both
adds the feature-test file and — because the archive check is an independent
`if`, not an `else if` — marks the rebuild and adds the train files. -/
theorem npz_check_gate_chain_cex :
    (npz_check_gate (FS.mk true false false false false)).2 = true
  ∧ RemoteFile.xTrain ∈ (npz_check_gate (FS.mk true false false false false)).1
  ∧ RemoteFile.yTrain ∈ (npz_check_gate (FS.mk true false false false false)).1 := by
  decide

/-- C4 (amended): when the directory exists and the feature-test file is
absent, the gate adds the feature-test file to the required-download set;
the archive check runs independently rather than as an `else if`, so the
rebuild flag equals the absence of the archive, and only when the archive is
present does the gate report the feature-test file alone with no rebuild. -/
theorem npz_check_gate_xtest_branch (fs : FS)
    (hdir : fs.dirExists = true) (hxt : fs.hasXTest = false) :
    RemoteFile.xTest ∈ (npz_check_gate fs).1
  ∧ (npz_check_gate fs).2 = !fs.hasNpz
  ∧ (fs.hasNpz = true → (npz_check_gate fs).1 = [RemoteFile.xTest]
      ∧ (npz_check_gate fs).2 = false) := by
  refine ⟨?_, ?_, fun h => ?_⟩
  · cases hnpz : fs.hasNpz <;> cases hxtr : fs.hasXTrain <;> cases hytr : fs.hasYTrain <;>
      simp [npz_check_gate, hdir, hxt, hnpz, hxtr, hytr]
  · cases hnpz : fs.hasNpz <;> cases hxtr : fs.hasXTrain <;> cases hytr : fs.hasYTrain <;>
      simp [npz_check_gate, hdir, hxt, hnpz, hxtr, hytr]
  · simp [npz_check_gate, hdir, hxt, h]

/-- Witness for the amended C4. -/
theorem npz_check_gate_xtest_branch_witness :
    ((FS.mk true false true false false).dirExists = true
      ∧ (FS.mk true false true false false).hasXTest = false)
  ∧ (RemoteFile.xTest ∈ (npz_check_gate (FS.mk true false true false false)).1
      ∧ (npz_check_gate (FS.mk true false true false false)).2
          = !(FS.mk true false true false false).hasNpz
      ∧ ((FS.mk true false true false false).hasNpz = true →
          (npz_check_gate (FS.mk true false true false false)).1 = [RemoteFile.xTest]
          ∧ (npz_check_gate (FS.mk true false true false false)).2 = false)) :=
  ⟨⟨rfl, rfl⟩, npz_check_gate_xtest_branch (FS.mk true false true false false) rfl rfl⟩

/-- C7: with no datasets directory (or an existing but empty one) the gate
requires all three remote files and the rebuild; with a directory holding
the feature-test file and the archive it requires no download and no
rebuild. -/
theorem npz_check_gate_empty_and_full (fs : FS) :
    (fs.dirExists = false →
      (npz_check_gate fs).1 = [RemoteFile.xTrain, RemoteFile.yTrain, RemoteFile.xTest]
      ∧ (npz_check_gate fs).2 = true)
  ∧ (fs.dirExists = true → fs.hasXTest = false → fs.hasNpz = false →
      fs.hasXTrain = false → fs.hasYTrain = false →
      (RemoteFile.xTrain ∈ (npz_check_gate fs).1
        ∧ RemoteFile.yTrain ∈ (npz_check_gate fs).1
        ∧ RemoteFile.xTest ∈ (npz_check_gate fs).1)
      ∧ (npz_check_gate fs).2 = true)
  ∧ (fs.dirExists = true → fs.hasXTest = true → fs.hasNpz = true →
      (npz_check_gate fs).1 = [] ∧ (npz_check_gate fs).2 = false) := by
  refine ⟨fun h1 => ?_, fun h1 h2 h3 h4 h5 => ?_, fun h1 h2 h3 => ?_⟩
  · simp [npz_check_gate, h1]
  · simp [npz_check_gate, h1, h2, h3, h4, h5]
  · simp [npz_check_gate, h1, h2, h3]

/-- Witness for C7. -/
theorem npz_check_gate_empty_and_full_witness :
    ((FS.mk false false false false false).dirExists = false)
  ∧ ((npz_check_gate (FS.mk false false false false false)).1
        = [RemoteFile.xTrain, RemoteFile.yTrain, RemoteFile.xTest]
      ∧ (npz_check_gate (FS.mk false false false false false)).2 = true) :=
  ⟨rfl, (npz_check_gate_empty_and_full (FS.mk false false false false false)).1 rfl⟩

/-! ## Embedding of `csv2npz` (`src/dataset/process_data.py`)

`csv2npz` reads the feature table `x` and the target table `y`, takes
`m = x.shape[0]` and `K = TIME_SERIES_LENGTH`, and builds
- `R = x[labels["R"]].values`,
- `X = y[[f"{v}_{i}" for v in labels["X"] for i in range(K)]].values.reshape((m, -1, K))`,
- `Z = x[[f"{v}_{i}" for v in labels["Z"] for i in range(K)]].values.reshape((m, -1, K))`.

A CSV table is embedded as its row count together with a cell function from
row index and column name to the (rational) value; column selection gives a
row-major value matrix, and the numpy reshape of its row-major flattening to
`(m, -1, K)` infers the middle dimension as `length / (m*K)`.  The float32
casts are elided: the claims concern placement, not rounding. -/

/-- `TIME_SERIES_LENGTH = 672`, module-level constant of the source. -/
def TIME_SERIES_LENGTH : Nat := 672

/-- A parsed CSV: number of rows and the value of each (row, column name). -/
structure Table where
  m : Nat
  cell : Nat → String → Rat

/-- The label specification loaded from `labels.json`: keys R, X, Z. -/
structure Labels where
  R : List String
  X : List String
  Z : List String

/-- The column name `f"{v}_{i}"`. -/
def colName (v : String) (i : Nat) : String :=
  v ++ "_" ++ toString i

/-- The column list `[f"{v}_{i}" for v in vars for i in range(K)]`. -/
def expandCols (vars : List String) (K : Nat) : List String :=
  (vars.map (fun v => (List.range K).map (colName v))).flatten

/-- `table[cols].values`: the row-major matrix of the selected columns. -/
def selectTable (tb : Table) (cols : List String) : List (List Rat) :=
  (List.range tb.m).map (fun s => cols.map (tb.cell s))

/-- numpy `reshape((m, -1, K))` of a row-major flat buffer: the inferred
middle dimension is `flat.length / (m*K)` and entry `(s, v, i)` reads the
flat buffer at `s*(cols*K) + v*K + i`. -/
def reshapeNp3 (flat : List Rat) (m K : Nat) : List (List (List Rat)) :=
  let cols := flat.length / (m * K)
  (List.range m).map (fun s =>
    (List.range cols).map (fun v =>
      (List.range K).map (fun i => flat.getD (s * (cols * K) + v * K + i) 0)))

/-- The three arrays written to the `.npz` archive. -/
structure NpzOut where
  R : List (List Rat)
  X : List (List (List Rat))
  Z : List (List (List Rat))

/-- Shallow embedding of `csv2npz`: `x` is the feature table, `y` the target
table; `m` is taken from the feature table. -/
def csv2npz (x y : Table) (lb : Labels) : NpzOut :=
  { R := selectTable x lb.R
  , X := reshapeNp3 (selectTable y (expandCols lb.X TIME_SERIES_LENGTH)).flatten
      x.m TIME_SERIES_LENGTH
  , Z := reshapeNp3 (selectTable x (expandCols lb.Z TIME_SERIES_LENGTH)).flatten
      x.m TIME_SERIES_LENGTH }

/-! ### Index lemmas for the assembler -/

lemma range_map_getD {α : Type} (f : Nat → α) (m s : Nat) (d : α) (h : s < m) :
    ((List.range m).map f).getD s d = f s := by
  rw [List.getD_eq_getElem _ _ (by simpa using h)]
  simp

lemma map_getD {α β : Type} (f : α → β) (l : List α) (j : Nat) (a : α) (b : β)
    (h : j < l.length) :
    (l.map f).getD j b = f (l.getD j a) := by
  rw [List.getD_eq_getElem _ _ (by simpa using h), List.getD_eq_getElem _ _ h]
  simp

lemma length_expandCols (vars : List String) (K : Nat) :
    (expandCols vars K).length = vars.length * K := by
  induction vars with
  | nil => simp [expandCols]
  | cons a vs ih =>
    show (((List.range K).map (colName a)) ++ expandCols vs K).length = (vs.length + 1) * K
    rw [List.length_append, List.length_map, List.length_range, ih, Nat.succ_mul]
    omega

lemma getD_expandCols (vars : List String) (K v t : Nat)
    (hv : v < vars.length) (ht : t < K) :
    (expandCols vars K).getD (v * K + t) "" = colName (vars.getD v "") t := by
  induction vars generalizing v with
  | nil => simp at hv
  | cons a vs ih =>
    cases v with
    | zero =>
      show (((List.range K).map (colName a)) ++ expandCols vs K).getD (0 * K + t) ""
          = colName a t
      rw [Nat.zero_mul, Nat.zero_add,
        List.getD_append _ _ _ _ (by simpa using ht)]
      exact range_map_getD (colName a) K t "" ht
    | succ v =>
      show (((List.range K).map (colName a)) ++ expandCols vs K).getD ((v + 1) * K + t) ""
          = colName (vs.getD v "") t
      rw [List.getD_append_right _ _ _ _
        (by rw [List.length_map, List.length_range, Nat.succ_mul]; omega)]
      have hidx : (v + 1) * K + t - ((List.range K).map (colName a)).length = v * K + t := by
        rw [List.length_map, List.length_range, Nat.succ_mul]
        omega
      rw [hidx]
      have hv2 : v < vs.length := by
        have hc := hv
        rw [List.length_cons] at hc
        omega
      exact ih v hv2

lemma flatten_length_const (mat : List (List Rat)) (w : Nat)
    (hw : ∀ r ∈ mat, r.length = w) :
    mat.flatten.length = mat.length * w := by
  induction mat with
  | nil => simp
  | cons r rest ih =>
    show (r ++ rest.flatten).length = (rest.length + 1) * w
    rw [List.length_append, hw r (by simp), ih (fun q hq => hw q (by simp [hq])),
      Nat.succ_mul]
    omega

lemma flatten_getD (mat : List (List Rat)) (w : Nat) (hw : ∀ r ∈ mat, r.length = w)
    (s j : Nat) (hs : s < mat.length) (hj : j < w) :
    mat.flatten.getD (s * w + j) 0 = (mat.getD s []).getD j 0 := by
  induction mat generalizing s with
  | nil => simp at hs
  | cons r rest ih =>
    cases s with
    | zero =>
      show (r ++ rest.flatten).getD (0 * w + j) 0 = r.getD j 0
      rw [Nat.zero_mul, Nat.zero_add,
        List.getD_append _ _ _ _ (by rw [hw r (by simp)]; exact hj)]
    | succ s =>
      show (r ++ rest.flatten).getD ((s + 1) * w + j) 0 = (rest.getD s []).getD j 0
      rw [List.getD_append_right _ _ _ _ (by rw [hw r (by simp), Nat.succ_mul]; omega)]
      have hidx : (s + 1) * w + j - r.length = s * w + j := by
        rw [hw r (by simp), Nat.succ_mul]
        omega
      rw [hidx]
      exact ih (fun q hq => hw q (by simp [hq])) s (by simpa using hs)

lemma selectTable_length (tb : Table) (cols : List String) :
    (selectTable tb cols).length = tb.m := by
  simp [selectTable]

lemma selectTable_getD (tb : Table) (cols : List String) (s : Nat) (hs : s < tb.m) :
    (selectTable tb cols).getD s [] = cols.map (tb.cell s) :=
  range_map_getD (fun s => cols.map (tb.cell s)) tb.m s [] hs

lemma selectTable_row_length (tb : Table) (cols : List String) :
    ∀ r ∈ selectTable tb cols, r.length = cols.length := by
  intro r hr
  simp only [selectTable, List.mem_map] at hr
  obtain ⟨s, _, rfl⟩ := hr
  simp

/-- Shape and entry placement of one reshaped block
`reshapeNp3 (selectTable tb (expandCols vars K)).flatten m K` when the
reshape row count `m` equals the selected table's row count. -/
lemma assemble_spec (tb : Table) (m : Nat) (hm : tb.m = m) (vars : List String)
    (K s v t : Nat) (hs : s < m) (hv : v < vars.length) (ht : t < K) :
    (reshapeNp3 (selectTable tb (expandCols vars K)).flatten m K).length = m
  ∧ ((reshapeNp3 (selectTable tb (expandCols vars K)).flatten m K).getD s []).length
      = vars.length
  ∧ (((reshapeNp3 (selectTable tb (expandCols vars K)).flatten m K).getD s
        []).getD v []).length = K
  ∧ ((((reshapeNp3 (selectTable tb (expandCols vars K)).flatten m K).getD s
        []).getD v []).getD t 0)
      = tb.cell s (colName (vars.getD v "") t) := by
  subst hm
  have hK : 0 < K := by omega
  have hm0 : 0 < tb.m := by omega
  have hrow : ∀ r ∈ selectTable tb (expandCols vars K), r.length = vars.length * K := by
    intro r hr
    rw [selectTable_row_length tb _ r hr, length_expandCols]
  have hflatlen : (selectTable tb (expandCols vars K)).flatten.length
      = tb.m * (vars.length * K) := by
    rw [flatten_length_const _ _ hrow, selectTable_length]
  have hcols : (selectTable tb (expandCols vars K)).flatten.length / (tb.m * K)
      = vars.length := by
    rw [hflatlen]
    have hsw : tb.m * (vars.length * K) = (tb.m * K) * vars.length := by ring
    rw [hsw]
    exact Nat.mul_div_cancel_left vars.length (Nat.mul_pos hm0 hK)
  refine ⟨?_, ?_, ?_, ?_⟩
  · simp [reshapeNp3]
  · simp only [reshapeNp3]
    rw [range_map_getD _ tb.m s [] hs]
    simp only [List.length_map, List.length_range]
    exact hcols
  · simp only [reshapeNp3]
    rw [range_map_getD _ tb.m s [] hs,
      range_map_getD _ _ v [] (by rw [hcols]; exact hv)]
    simp
  · simp only [reshapeNp3]
    rw [range_map_getD _ tb.m s [] hs,
      range_map_getD _ _ v [] (by rw [hcols]; exact hv),
      range_map_getD _ K t 0 ht]
    rw [hcols]
    have hj : v * K + t < vars.length * K := by
      calc v * K + t < v * K + K := by omega
        _ = (v + 1) * K := by ring
        _ ≤ vars.length * K := Nat.mul_le_mul_right K (by omega)
    have hassoc : s * (vars.length * K) + v * K + t
        = s * (vars.length * K) + (v * K + t) := by omega
    rw [hassoc,
      flatten_getD _ _ hrow s _ (by rw [selectTable_length]; exact hs) hj,
      selectTable_getD tb _ s hs,
      map_getD _ _ _ "" 0 (by rw [length_expandCols]; exact hj),
      getD_expandCols vars K v t hv ht]

/-- C1: for tables with matching row count `m`, `csv2npz` produces `X` of
shape `(m, len(labels.X), 672)` and `Z` of shape `(m, len(labels.Z), 672)`,
and the row-major reshape places values so that `X[s][v][t]` is the target
table's value at row `s` in column `f"{labels.X[v]}_{t}"`, and `Z[s][v][t]`
is the feature table's value at row `s` in column `f"{labels.Z[v]}_{t}"`. -/
theorem csv2npz_shape_and_order (x y : Table) (lb : Labels) (s v u t : Nat)
    (hm : y.m = x.m) (hs : s < x.m) (hv : v < lb.X.length) (hu : u < lb.Z.length)
    (ht : t < TIME_SERIES_LENGTH) :
    (csv2npz x y lb).X.length = x.m
  ∧ ((csv2npz x y lb).X.getD s []).length = lb.X.length
  ∧ (((csv2npz x y lb).X.getD s []).getD v []).length = TIME_SERIES_LENGTH
  ∧ ((((csv2npz x y lb).X.getD s []).getD v []).getD t 0
      = y.cell s (colName (lb.X.getD v "") t))
  ∧ (csv2npz x y lb).Z.length = x.m
  ∧ ((csv2npz x y lb).Z.getD s []).length = lb.Z.length
  ∧ (((csv2npz x y lb).Z.getD s []).getD u []).length = TIME_SERIES_LENGTH
  ∧ ((((csv2npz x y lb).Z.getD s []).getD u []).getD t 0
      = x.cell s (colName (lb.Z.getD u "") t)) := by
  obtain ⟨hx1, hx2, hx3, hx4⟩ :=
    assemble_spec y x.m hm lb.X TIME_SERIES_LENGTH s v t hs hv ht
  obtain ⟨hz1, hz2, hz3, hz4⟩ :=
    assemble_spec x x.m rfl lb.Z TIME_SERIES_LENGTH s u t hs hu ht
  exact ⟨hx1, hx2, hx3, hx4, hz1, hz2, hz3, hz4⟩

/-- One-row feature table for the C1 witness. -/
def tblX0 : Table :=
  { m := 1, cell := fun _ c => if c = colName "b" 3 then 7 else 0 }

/-- One-row target table for the C1 witness. -/
def tblY0 : Table :=
  { m := 1, cell := fun _ c => if c = colName "a" 5 then 2 else 1 }

/-- Label specification for the C1 witness. -/
def lb0 : Labels := { R := [], X := ["a"], Z := ["b"] }

/-- Witness for C1. -/
theorem csv2npz_shape_and_order_witness :
    (tblY0.m = tblX0.m ∧ 0 < tblX0.m ∧ 0 < lb0.X.length ∧ 0 < lb0.Z.length
      ∧ 5 < TIME_SERIES_LENGTH)
  ∧ (csv2npz tblX0 tblY0 lb0).X.length = tblX0.m
  ∧ ((((csv2npz tblX0 tblY0 lb0).X.getD 0 []).getD 0 []).getD 5 0
      = tblY0.cell 0 (colName "a" 5)) :=
  ⟨⟨rfl, by decide, by decide, by decide, by decide⟩,
   (csv2npz_shape_and_order tblX0 tblY0 lb0 0 0 0 5 rfl (by decide) (by decide)
      (by decide) (by decide)).1,
   (csv2npz_shape_and_order tblX0 tblY0 lb0 0 0 0 5 rfl (by decide) (by decide)
      (by decide) (by decide)).2.2.2.1⟩

end Transformer
